import Mathlib

/-
  Verification of the ai-email-assistant ingestion/analysis/response pipeline.

  Shallow embedding of:
    - src/email/app.py            (ingest_latest, sort_key, dashboard ingestion)
    - src/email/utils/db.py       (init_db / upsert_emails / fetch_emails over sqlite)
    - src/email/services/nlp_service.py      (heuristic analyzer + optional oracle refinement)
    - src/email/services/response_service.py (KB retrieval + draft generation)

  Modelling conventions:
    - Python strings are Lean `String`s (`.data : List Char`); `str.lower` is modelled on
      ASCII (the fixed word lists and all claim-relevant text are ASCII).
    - Python `None` and a missing dict key behave identically through every code path the
      claims exercise, so a raw-email field is a single `Option String` (`none` = absent/null).
    - External library calls with unspecified internals (the `re` regex engine for contact
      extraction, CPython's salted `hash`, the Gemini oracle, `json.loads`) are parameters
      of the functions that invoke them; everything else is translated directly.
    - `datetime.fromisoformat(...).timestamp()` and sqlite's `datetime(...)` are modelled by
      `parseIso`, which accepts the canonical 19-character `YYYY-MM-DDTHH:MM:SS` form
      (`T` or space separator) and yields whole epoch seconds with the ambient timezone
      taken as UTC; any other string is treated as unparseable.
    - The sqlite table is a list of rows in rowid order; `ON CONFLICT(message_id) DO UPDATE`
      overwrites the conflicting row in place, an insert appends.
-/

namespace EmailAssist

/-! ### Python string primitives -/

/-- The whitespace characters stripped by Python's `str.strip` (ASCII fragment):
space, tab, newline, carriage return, vertical tab, form feed. -/
def pyIsSpace (c : Char) : Bool := c.toNat ∈ [32, 9, 10, 13, 11, 12]

/-- `str.lower` on one character (ASCII): uppercase letters are shifted by 32. -/
def pyLowerChar (c : Char) : Char :=
  if 65 ≤ c.toNat ∧ c.toNat ≤ 90 then Char.ofNat (c.toNat + 32) else c

/-- `str.lower` on a character list. -/
def pyLower (l : List Char) : List Char := l.map pyLowerChar

/-- `str.strip()` on a character list: drop whitespace from both ends. -/
def pyStripL (l : List Char) : List Char :=
  (((l.dropWhile pyIsSpace).reverse.dropWhile pyIsSpace)).reverse

/-- `str.strip()` on strings. -/
def pyStrip (s : String) : String := String.mk (pyStripL s.data)

/-- Python's `needle in hay` substring test on character lists. -/
def pyInL (w l : List Char) : Bool := decide (w <:+: l)

/-- Python's `needle in hay` substring test on strings. -/
def pyIn (w s : String) : Bool := pyInL w.data s.data

/-- Python truthiness of an optional string (`None` and `""` are falsy). -/
def pyTruthy (o : Option String) : Bool :=
  match o with
  | none => false
  | some s => !(s == "")

/-- Python `value or default` for an optional string: `None` and `""` fall back. -/
def pyOrD (o : Option String) (d : String) : String :=
  match o with
  | none => d
  | some s => if s = "" then d else s

/-- Code-point lexicographic `≤` on character lists, Python's string comparison. -/
def lexLeB : List Char → List Char → Bool
  | [], _ => true
  | _ :: _, [] => false
  | a :: as, b :: bs =>
    if a.toNat < b.toNat then true
    else if b.toNat < a.toNat then false
    else lexLeB as bs

/-- Python's `≤` on strings, as a proposition. -/
def pyStrLe (s t : String) : Prop := lexLeB s.data t.data = true

instance : DecidableRel pyStrLe := fun _ _ => inferInstanceAs (Decidable (_ = true))

/-! ### ISO-8601 timestamps (model of `datetime.fromisoformat(...).timestamp()` and of
sqlite's `datetime(...)` ordering key, restricted to the canonical second-resolution form) -/

def isLeap (y : Nat) : Bool := y % 4 = 0 && (y % 100 ≠ 0 || y % 400 = 0)

def daysInMonth (y m : Nat) : Nat :=
  if m = 2 then (if isLeap y then 29 else 28)
  else if m ∈ [4, 6, 9, 11] then 30 else 31

/-- Days since 1970-01-01 of a civil date (Howard Hinnant's days-from-civil algorithm). -/
def daysFromCivil (y m d : Nat) : Int :=
  let y' := if m ≤ 2 then y - 1 else y
  let era := y' / 400
  let yoe := y' - era * 400
  let mp := (m + 9) % 12
  let doy := (153 * mp + 2) / 5 + (d - 1)
  let doe := yoe * 365 + yoe / 4 - yoe / 100 + doy
  (era * 146097 + doe : Int) - 719468

def readDigit (l : List Char) (i : Nat) : Option Nat :=
  match l.get? i with
  | none => none
  | some c => if 48 ≤ c.toNat ∧ c.toNat ≤ 57 then some (c.toNat - 48) else none

def read2 (l : List Char) (i : Nat) : Option Nat :=
  match readDigit l i, readDigit l (i + 1) with
  | some a, some b => some (10 * a + b)
  | _, _ => none

def read4 (l : List Char) (i : Nat) : Option Nat :=
  match read2 l i, read2 l (i + 2) with
  | some a, some b => some (100 * a + b)
  | _, _ => none

def isCharAt (l : List Char) (i : Nat) (code : Nat) : Bool :=
  match l.get? i with
  | some c => c.toNat = code
  | none => false

/-- Parse a `YYYY-MM-DDTHH:MM:SS` timestamp (separator `T` or space) to whole epoch
seconds, validating the civil date; `none` on anything else.  This is the model of both
`datetime.fromisoformat(...).timestamp()` (ambient timezone taken as UTC) and the
chronological key sqlite's `datetime(received_at)` orders by. -/
def parseIso (s : String) : Option Int :=
  let l := s.data
  if l.length = 19 ∧ isCharAt l 4 45 ∧ isCharAt l 7 45 ∧
     (isCharAt l 10 84 ∨ isCharAt l 10 32) ∧ isCharAt l 13 58 ∧ isCharAt l 16 58 then
    match read4 l 0, read2 l 5, read2 l 8, read2 l 11, read2 l 14, read2 l 17 with
    | some y, some mo, some d, some h, some mi, some se =>
      if 1 ≤ y ∧ 1 ≤ mo ∧ mo ≤ 12 ∧ 1 ≤ d ∧ d ≤ daysInMonth y mo ∧
         h ≤ 23 ∧ mi ≤ 59 ∧ se ≤ 59 then
        some (daysFromCivil y mo d * 86400 + (h * 3600 + mi * 60 + se : Nat))
      else none
    | _, _, _, _, _, _ => none
  else none

/-! ### nlp_service.py – heuristic analyzer -/

/-- `POS_WORDS` from nlp_service.py (a Python set; only membership matters). -/
def POS_WORDS : List String :=
  ["great", "thanks", "thank you", "appreciate", "love", "awesome", "good"]

/-- `NEG_WORDS` from nlp_service.py. -/
def NEG_WORDS : List String :=
  ["issue", "problem", "angry", "frustrated", "not working", "cannot", "error", "fail"]

/-- `URGENT_WORDS` from nlp_service.py. -/
def URGENT_WORDS : List String :=
  ["urgent", "immediately", "asap", "critical", "cannot access", "down", "outage", "blocked"]

/-- `_sentiment` from nlp_service.py: lowercase the text, then binary presence tests of the
positive and negative word sets decide the label. -/
def _sentiment (text : String) : String :=
  let tl := String.mk (pyLower text.data)
  let pos := POS_WORDS.any (fun w => pyIn w tl)
  let neg := NEG_WORDS.any (fun w => pyIn w tl)
  if pos && !neg then "Positive"
  else if neg && !pos then "Negative"
  else "Neutral"

/-- `_priority` from nlp_service.py. -/
def _priority (text : String) : String :=
  let tl := String.mk (pyLower text.data)
  if URGENT_WORDS.any (fun w => pyIn w tl) then "Urgent" else "Not urgent"

/-- The matchers `re.findall(EMAIL_REGEX, ·)` and `re.findall(PHONE_REGEX, ·)` of
nlp_service.py; the `re` engine is external, so the two match-list functions are
parameters of the embedding. -/
structure Re where
  findEmails : String → List String
  findPhones : String → List String

/-- Python's `sorted(set(xs))`: the distinct elements in code-point lexicographic order.
(`List.insertionSort` is a stable sort, and any sort of the deduplicated list agrees with
Python's on a nodup input.) -/
def pySortedSet (xs : List String) : List String :=
  (xs.dedup).insertionSort pyStrLe

/-- `_extract_contacts` from nlp_service.py: regex-match emails and phones, then for each
nonempty match list emit `"Emails: ..."`/`"Phones: ..."` with the first 3 of
`sorted(set(...))`, joining the present segments with `" | "`. -/
def _extract_contacts (rex : Re) (text : String) : String :=
  let emails := rex.findEmails text
  let phones := rex.findPhones text
  let parts : List String :=
    (if emails.isEmpty then [] else
      ["Emails: " ++ String.intercalate ", " ((pySortedSet emails).take 3)]) ++
    (if phones.isEmpty then [] else
      ["Phones: " ++ String.intercalate ", " ((pySortedSet phones).take 3)])
  String.intercalate " | " parts

/-- The sentence enders `.`, `!`, `?` of the split pattern in `_extract_requirements`. -/
def isEnder (c : Char) : Bool := c.toNat ∈ [46, 33, 63]

theorem length_dropWhile_le (p : α → Bool) (l : List α) :
    (l.dropWhile p).length ≤ l.length :=
  ((List.dropWhile_suffix p).sublist).length_le

/-- `re.split(r"(?<=[.!?])\s+", ·)` : cut at every maximal whitespace run that directly
follows a sentence ender (`prev` is the character preceding the current position). -/
def sentGo (prev : Option Char) : List Char → List (List Char)
  | [] => [[]]
  | c :: rest =>
    if h : (match prev with | some p => isEnder p | none => false) && pyIsSpace c then
      [] :: sentGo (some c) ((c :: rest).dropWhile pyIsSpace)
    else
      (sentGo (some c) rest).modifyHead (fun hd => c :: hd)
termination_by l => l.length
decreasing_by
  · simp only [List.dropWhile_cons, (Bool.and_eq_true _ _).mp h |>.right]
    exact Nat.lt_succ_of_le (length_dropWhile_le _ _)
  · simp

/-- `_extract_requirements` from nlp_service.py: split the stripped body into sentences,
keep those containing a requirement keyword (case-insensitive substring), join the first
three with single spaces; empty body yields `""`. -/
def _extract_requirements (text : String) : String :=
  if text = "" then ""
  else
    let sentences := (sentGo none (pyStripL text.data)).map String.mk
    let keys : List String :=
      ["need", "require", "want", "request", "help", "cannot", "unable", "fix", "access",
       "please"]
    let reqs := sentences.filter
      (fun s => keys.any (fun k => pyIn k (String.mk (pyLower s.data))))
    String.intercalate " " (reqs.take 3)

/-- The `Analysis` dict produced by `analyze_email`. -/
structure Analysis where
  sentiment : String
  priority : String
  requirements : String
  contacts : String
deriving DecidableEq

/-- A normalized email (the `e_norm` dict of app.py): all five fields are present
strings. -/
structure NormEmail where
  message_id : String
  sender : String
  subject : String
  body : String
  received_at : String
deriving DecidableEq

/-- The heuristic baseline `result` of `analyze_email`: sentiment/priority over the
stripped `subject + "\n" + body`, requirements and contacts over the body only. -/
def heuristicAnalysis (rex : Re) (n : NormEmail) : Analysis :=
  let combined := pyStrip (n.subject ++ "\n" ++ n.body)
  { sentiment := _sentiment combined
    priority := _priority combined
    requirements := _extract_requirements n.body
    contacts := _extract_contacts rex n.body }

/-- The `re.search(r"\x7b.*\x7d", raw, re.S)` step of `analyze_email`: the substring from
the first opening brace to the last closing brace when such a (nonempty) span exists,
otherwise `raw` itself (`jtxt = m.group(0) if m else raw`).  Character codes 123/125 are
the braces. -/
def extractJsonSub (raw : String) : String :=
  let l := raw.data
  match l.findIdx? (fun c => c.toNat = 123), l.reverse.findIdx? (fun c => c.toNat = 125) with
  | some i, some rj =>
    let j := l.length - 1 - rj
    if i < j then String.mk ((l.drop i).take (j - i + 1)) else raw
  | _, _ => raw

/-- `parsed.get(k) or result[k]` over the JSON object returned by the oracle: absent or
falsy parsed fields fall back.  The model restricts JSON values to strings (JSON `null`
behaves as absent); no claim exercises non-string values. -/
def pyDictGetOr (d : List (String × String)) (k fb : String) : String :=
  match d.find? (fun p => p.1 == k) with
  | some p => if p.2 = "" then fb else p.2
  | none => fb

/-- `analyze_email` from nlp_service.py.  `gemKey` models the presence of
`GEMINI_API_KEY`; `gemReply` is what `_call_gemini` returns for this email's prompt
(`none` covers every failure: exception, timeout, client errors); `jloads` models
`json.loads` restricted to string-valued objects (`none` = raise, or a non-object value
whose `.get` raises — both caught by the `except` and degraded to the heuristic
`result`). -/
def analyze_email (rex : Re) (gemKey : Bool) (gemReply : Option String)
    (jloads : String → Option (List (String × String))) (n : NormEmail) : Analysis :=
  let result := heuristicAnalysis rex n
  if gemKey then
    match gemReply with
    | none => result
    | some raw =>
      match jloads (extractJsonSub raw) with
      | none => result
      | some parsed =>
        { priority := pyDictGetOr parsed "priority" result.priority
          sentiment := pyDictGetOr parsed "sentiment" result.sentiment
          requirements := pyDictGetOr parsed "requirements" result.requirements
          contacts := pyDictGetOr parsed "contacts" result.contacts }
  else result

/-! ### response_service.py – KB retrieval and draft generation -/

/-- `_tokenize` from response_service.py: `re.findall(r"\w+", text.lower())` — the maximal
runs of word characters (letters, digits, underscore; code 95) of the lowercased text. -/
def isWordChar (c : Char) : Bool :=
  (48 ≤ c.toNat ∧ c.toNat ≤ 57) ∨ (65 ≤ c.toNat ∧ c.toNat ≤ 90) ∨
  (97 ≤ c.toNat ∧ c.toNat ≤ 122) ∨ c.toNat = 95

def wordRuns : List Char → List (List Char)
  | [] => []
  | c :: rest =>
    if h : isWordChar c then
      ((c :: rest).takeWhile isWordChar) :: wordRuns ((c :: rest).dropWhile isWordChar)
    else
      wordRuns rest
termination_by l => l.length
decreasing_by
  · simp only [List.dropWhile_cons, h]
    exact Nat.lt_succ_of_le (length_dropWhile_le _ _)
  · simp

def _tokenize (s : String) : List (List Char) := wordRuns (pyLower s.data)

/-- `set(_tokenize(s))`: the distinct tokens, in first-occurrence order (a Python set;
only membership and cardinality of intersections matter downstream). -/
def tokSet (s : String) : List (List Char) := (_tokenize s).dedup

/-- One retrieved KB match: the `{"score","text","source"}` dict of
`retrieve_relevant_kb`. -/
structure ScoredDoc where
  score : Nat
  text : String
  source : String
deriving DecidableEq

/-- The candidate loop of `retrieve_relevant_kb` over the knowledge-base documents
(`(filename, contents)` pairs in glob enumeration order; files whose read raises are
skipped by the code and so are simply absent from the list): keep each document whose
token-set intersection with the query is nonempty, scored by that intersection's size. -/
def kbCandidates (docs : List (String × String)) (q : List (List Char)) : List ScoredDoc :=
  docs.filterMap (fun p =>
    let sc := (q ∩ tokSet p.2).length
    if sc = 0 then none else some ⟨sc, p.2, p.1⟩)

/-- `candidates.sort(key=lambda x: x[0], reverse=True)`: stable descending by score. -/
def scoreGe (a b : ScoredDoc) : Prop := b.score ≤ a.score

instance : DecidableRel scoreGe := fun a b => inferInstanceAs (Decidable (_ ≤ _))

instance : IsTotal ScoredDoc scoreGe := ⟨fun a b => Nat.le_total b.score a.score⟩

instance : IsTrans ScoredDoc scoreGe := ⟨fun _ _ _ h h' => Nat.le_trans h' h⟩

/-- `retrieve_relevant_kb` from response_service.py.  `kb = none` models a missing
`knowledge_base` directory. -/
def retrieve_relevant_kb (kb : Option (List (String × String))) (email_body : String)
    (top_k : Nat) : List ScoredDoc :=
  let q := tokSet email_body
  if q.isEmpty then []
  else
    match kb with
    | none => []
    | some docs => ((kbCandidates docs q).insertionSort scoreGe).take top_k

/-- The fallback template of `generate_response` (step 4 of the source): greeting from the
sender name before any `<` (code 60), a sentiment-conditioned opener, a requirements
summary (generic phrase when empty), a priority-conditioned line, fixed closing and
sign-off. -/
def fallbackDraft (n : NormEmail) (analysis : Analysis) : String :=
  let sender := n.sender
  let tone_open :=
    if analysis.sentiment ≠ "Negative" then "Thanks for reaching out."
    else "I'm really sorry for the trouble you're facing — thank you for reporting this."
  let priority_line :=
    if analysis.priority = "Urgent" then
      "I've marked this as urgent and escalated it to our team."
    else "I've logged this request and our team will follow up."
  let requirements :=
    if analysis.requirements = "" then "the details you shared" else analysis.requirements
  let closing :=
    "If you can share screenshots or any additional details, please reply to this message."
  "Hi " ++ pyStrip (String.mk (sender.data.takeWhile (fun c => c.toNat ≠ 60))) ++ ",\n\n" ++
    tone_open ++ " Based on your message, I understand: " ++ requirements ++ ".\n\n" ++
    priority_line ++ " " ++ closing ++ "\n\nBest regards,\nSupport Team"

/-- `generate_response` from response_service.py.  `gemReply` is `_call_gemini`'s return
value for the built prompt (`none` = failure); with the credential set, any truthy reply
is returned `strip`ped, and a `None`/empty reply falls through to the template.  The KB
retrieval and prompt construction only feed the oracle, so the reply parameter absorbs
them; the fallback path never reads them. -/
def generate_response (gemKey : Bool) (gemReply : Option String) (n : NormEmail)
    (analysis : Analysis) : String :=
  if gemKey then
    match gemReply with
    | some out => if out = "" then fallbackDraft n analysis else pyStrip out
    | none => fallbackDraft n analysis
  else fallbackDraft n analysis

/-! ### utils/db.py – the record store -/

/-- A stored email row (sqlite columns other than the autoincrement rowid). -/
structure Rec where
  message_id : String
  sender : String
  subject : String
  body : String
  received_at : String
  priority : String
  sentiment : String
  requirements : String
  contacts : String
  draft_reply : String
  status : String
deriving DecidableEq

def recIdMatches (k : String) (x : Rec) : Bool := x.message_id == k

/-- One row of `executemany` under `INSERT ... ON CONFLICT(message_id) DO UPDATE`:
the `message_id TEXT UNIQUE` constraint makes an existing row with the same identifier be
overwritten in place (same rowid, all fields from the new record), otherwise the row is
appended. -/
def upsert1 (s : List Rec) (r : Rec) : List Rec :=
  if s.any (recIdMatches r.message_id) then
    s.map (fun x => if recIdMatches r.message_id x then r else x)
  else s ++ [r]

/-- `upsert_emails` from db.py: the batch is applied row by row in order. -/
def upsert_emails (recs : List Rec) (s : List Rec) : List Rec := recs.foldl upsert1 s

def storeKeys (s : List Rec) : List String := s.map (·.message_id)

def storeLookup (s : List Rec) (k : String) : Option Rec := s.find? (recIdMatches k)

/-- Ordering key of a row under sqlite's `datetime(received_at)`; `none` (NULL) sorts
below every real datetime, hence last under `DESC`. -/
def fetchKeyOpt (r : Rec) : Option Int := parseIso r.received_at

def priRank (r : Rec) : Nat := if r.priority = "Urgent" then 0 else 1

/-- `a` may precede `b` under `ORDER BY datetime(received_at) DESC` (NULLs last). -/
def dtDescLeB : Option Int → Option Int → Bool
  | some x, some y => decide (y ≤ x)
  | some _, none => true
  | none, some _ => false
  | none, none => true

def fetchLe1B (a b : Rec) : Bool :=
  decide (priRank a < priRank b) ||
    (decide (priRank a = priRank b) && dtDescLeB (fetchKeyOpt a) (fetchKeyOpt b))

/-- Row order of the `order_by_priority` query: `CASE WHEN priority='Urgent' THEN 0 ELSE 1
END`, then `datetime(received_at) DESC`. -/
def fetchLe1 (a b : Rec) : Prop := fetchLe1B a b = true

def fetchLe2B (a b : Rec) : Bool := dtDescLeB (fetchKeyOpt a) (fetchKeyOpt b)

/-- Row order of the plain query: `datetime(received_at) DESC`. -/
def fetchLe2 (a b : Rec) : Prop := fetchLe2B a b = true

instance : DecidableRel fetchLe1 := fun _ _ => inferInstanceAs (Decidable (_ = true))

instance : DecidableRel fetchLe2 := fun _ _ => inferInstanceAs (Decidable (_ = true))

theorem dtDescLeB_total (x y : Option Int) : dtDescLeB x y = true ∨ dtDescLeB y x = true := by
  rcases x with _ | a <;> rcases y with _ | b <;> simp [dtDescLeB] <;> omega

theorem dtDescLeB_trans {x y z : Option Int} (h1 : dtDescLeB x y = true)
    (h2 : dtDescLeB y z = true) : dtDescLeB x z = true := by
  rcases x with _ | a <;> rcases y with _ | b <;> rcases z with _ | c <;>
    simp [dtDescLeB] at * <;> omega

instance : IsTotal Rec fetchLe1 := by
  constructor
  intro a b
  unfold fetchLe1 fetchLe1B
  rcases Nat.lt_trichotomy (priRank a) (priRank b) with h | h | h
  · left; simp [h]
  · rcases dtDescLeB_total (fetchKeyOpt a) (fetchKeyOpt b) with hd | hd
    · left; simp [h, hd]
    · right; simp [h.symm, hd]
  · right; simp [h]

instance : IsTrans Rec fetchLe1 := by
  constructor
  intro a b c h1 h2
  unfold fetchLe1 fetchLe1B at *
  simp only [Bool.or_eq_true, Bool.and_eq_true, decide_eq_true_eq] at *
  rcases h1 with h1 | ⟨h1, hd1⟩ <;> rcases h2 with h2 | ⟨h2, hd2⟩
  · exact Or.inl (Nat.lt_trans h1 h2)
  · exact Or.inl (h2 ▸ h1)
  · exact Or.inl (h1 ▸ h2)
  · exact Or.inr ⟨h1.trans h2, dtDescLeB_trans hd1 hd2⟩

instance : IsTotal Rec fetchLe2 := by
  constructor
  intro a b
  unfold fetchLe2 fetchLe2B
  exact dtDescLeB_total _ _

instance : IsTrans Rec fetchLe2 := by
  constructor
  intro a b c h1 h2
  exact dtDescLeB_trans h1 h2

/-- `fetch_emails` from db.py: sort all rows by the selected ordering, then `LIMIT`. -/
def fetch_emails (s : List Rec) (order_by_priority : Bool) (limit : Nat) : List Rec :=
  if order_by_priority then (s.insertionSort fetchLe1).take limit
  else (s.insertionSort fetchLe2).take limit

/-! ### app.py – the ingestion pipeline -/

/-- A raw email as delivered by the mail-retrieval collaborator: every field may be
absent.  (A present Python `None` behaves as an absent key through every path the claims
exercise, so both are `none`.) -/
structure RawEmail where
  message_id : Option String
  sender : Option String
  subject : Option String
  body : Option String
  received_at : Option String
deriving DecidableEq

/-- The fallback identifier `f"{e.get('sender')}_{e.get('subject')}_{hash(e.get('body',''))}"`
of `ingest_latest`.  `pyhash` is CPython's builtin `hash` on strings, which is salted per
process (`PYTHONHASHSEED`), hence a parameter; an absent sender/subject renders as the
f-string text `"None"`. -/
def derivedId (pyhash : String → Int) (e : RawEmail) : String :=
  (e.sender.getD "None") ++ "_" ++ (e.subject.getD "None") ++ "_" ++
    toString (pyhash (e.body.getD ""))

/-- The `e_norm` construction of `ingest_latest`: `now` is `datetime.utcnow().isoformat()`
at this run.  `e.get("subject", "") or ""` collapses to `getD ""` on strings (an empty
present subject is already `""`). -/
def normalize (pyhash : String → Int) (now : String) (e : RawEmail) : NormEmail :=
  { message_id := pyOrD e.message_id (derivedId pyhash e)
    sender := e.sender.getD ""
    subject := e.subject.getD ""
    body := e.body.getD ""
    received_at := pyOrD e.received_at now }

/-- One iteration of the processing loop of `ingest_latest` with the oracle credential
unset (the deterministic heuristic path): normalize, analyze, draft, and assemble the
record with `status = "pending"`.  The `analysis.get(k, default)` defaults are dead code —
`analyze_email` always returns all four keys. -/
def buildRec (rex : Re) (pyhash : String → Int) (now : String) (e : RawEmail) : Rec :=
  let n := normalize pyhash now e
  let analysis := analyze_email rex false none (fun _ => none) n
  let draft := generate_response false none n analysis
  { message_id := n.message_id
    sender := n.sender
    subject := n.subject
    body := n.body
    received_at := n.received_at
    priority := analysis.priority
    sentiment := analysis.sentiment
    requirements := analysis.requirements
    contacts := analysis.contacts
    draft_reply := draft
    status := "pending" }

/-- The `ts_key` of `sort_key`: `-timestamp` when the record's `received_at` parses, the
fallback `0` when `datetime.fromisoformat` raises. -/
def tsKey (r : Rec) : Int :=
  match parseIso r.received_at with
  | some t => -t
  | none => 0

/-- `sort_key` from `ingest_latest`: `(0 if Urgent else 1, ts_key)`. -/
def sort_key (r : Rec) : Nat × Int := (priRank r, tsKey r)

def pairLeB (x y : Nat × Int) : Bool :=
  decide (x.1 < y.1) || (decide (x.1 = y.1) && decide (x.2 ≤ y.2))

/-- Ascending order on `sort_key` tuples — the order of `processed.sort(key=sort_key)`. -/
def batchLe (a b : Rec) : Prop := pairLeB (sort_key a) (sort_key b) = true

instance : DecidableRel batchLe := fun _ _ => inferInstanceAs (Decidable (_ = true))

theorem pairLeB_total (x y : Nat × Int) : pairLeB x y = true ∨ pairLeB y x = true := by
  simp [pairLeB]
  omega

theorem pairLeB_trans {x y z : Nat × Int} (h1 : pairLeB x y = true)
    (h2 : pairLeB y z = true) : pairLeB x z = true := by
  simp [pairLeB] at *
  omega

instance : IsTotal Rec batchLe := ⟨fun a b => pairLeB_total (sort_key a) (sort_key b)⟩

instance : IsTrans Rec batchLe := ⟨fun _ _ _ h1 h2 => pairLeB_trans h1 h2⟩

/-- `processed.sort(key=sort_key)`: Python's stable ascending sort by key
(`insertionSort` is stable, so it is the same list). -/
def sortBatch (l : List Rec) : List Rec := l.insertionSort batchLe

/-- `ingest_latest` from app.py, applied to the raw batch the mail transport returned (the
transport itself is an external collaborator): process every raw email, sort the batch
with `sort_key`, and upsert into the store unless the batch is empty. -/
def ingest_latest (rex : Re) (pyhash : String → Int) (now : String)
    (raw_emails : List RawEmail) (store : List Rec) : List Rec :=
  let processed := raw_emails.map (buildRec rex pyhash now)
  if processed.isEmpty then store else upsert_emails (sortBatch processed) store

/-! ### Store lemmas -/

/-- The record a batch leaves under identifier `k`: the last batch entry matching `k`. -/
def lastAssign (recs : List Rec) (k : String) : Option Rec :=
  (recs.filter (recIdMatches k)).getLast?

theorem any_recIdMatches_iff {s : List Rec} {k : String} :
    s.any (recIdMatches k) = true ↔ k ∈ storeKeys s := by
  simp [List.any_eq_true, recIdMatches, storeKeys, List.mem_map]

theorem getLast?_cons_or (a : α) (l : List α) :
    (a :: l).getLast? = l.getLast?.or (some a) := by
  rw [show a :: l = [a] ++ l from rfl, List.getLast?_append]
  rfl

theorem storeKeys_upsert1 (s : List Rec) (r : Rec) :
    storeKeys (upsert1 s r) =
      if r.message_id ∈ storeKeys s then storeKeys s else storeKeys s ++ [r.message_id] := by
  unfold upsert1
  by_cases h : r.message_id ∈ storeKeys s
  · rw [if_pos (any_recIdMatches_iff.mpr h), if_pos h]
    unfold storeKeys
    rw [List.map_map]
    apply List.map_congr_left
    intro x _
    by_cases hc : recIdMatches r.message_id x
    · have : x.message_id = r.message_id := by simpa [recIdMatches] using hc
      simp [hc, this]
    · simp [hc]
  · rw [if_neg (by simpa using (any_recIdMatches_iff (s := s) (k := r.message_id)).not.mpr h),
      if_neg h]
    simp [storeKeys]

theorem mem_storeKeys_upsert1_self (s : List Rec) (r : Rec) :
    r.message_id ∈ storeKeys (upsert1 s r) := by
  rw [storeKeys_upsert1]
  split
  · assumption
  · simp

theorem mem_storeKeys_upsert1_of_mem (s : List Rec) (r : Rec) {k : String}
    (h : k ∈ storeKeys s) : k ∈ storeKeys (upsert1 s r) := by
  rw [storeKeys_upsert1]
  split <;> simp [h]

theorem storeKeys_mono_upsert_emails (recs : List Rec) : ∀ (s : List Rec) {k : String},
    k ∈ storeKeys s → k ∈ storeKeys (upsert_emails recs s) := by
  induction recs with
  | nil => intro s k h; exact h
  | cons r t ih =>
    intro s k h
    exact ih (upsert1 s r) (mem_storeKeys_upsert1_of_mem s r h)

theorem mem_storeKeys_upsert_emails (recs : List Rec) : ∀ (s : List Rec), ∀ r ∈ recs,
    r.message_id ∈ storeKeys (upsert_emails recs s) := by
  induction recs with
  | nil => intro s r h; cases h
  | cons r' t ih =>
    intro s r h
    rcases List.mem_cons.mp h with rfl | h
    · exact storeKeys_mono_upsert_emails t (upsert1 s r) (mem_storeKeys_upsert1_self s r)
    · exact ih (upsert1 s r') r h

theorem storeKeys_upsert_emails_of_sub (recs : List Rec) : ∀ (s : List Rec),
    (∀ r ∈ recs, r.message_id ∈ storeKeys s) →
    storeKeys (upsert_emails recs s) = storeKeys s := by
  induction recs with
  | nil => intro s _; rfl
  | cons r t ih =>
    intro s h
    have h1 : storeKeys (upsert1 s r) = storeKeys s := by
      rw [storeKeys_upsert1, if_pos (h r (List.mem_cons_self r t))]
    have := ih (upsert1 s r) (fun q hq => h1 ▸ h q (List.mem_cons_of_mem r hq))
    rw [show upsert_emails (r :: t) s = upsert_emails t (upsert1 s r) from rfl, this, h1]

theorem storeKeys_nodup_upsert1 (s : List Rec) (r : Rec)
    (h : (storeKeys s).Nodup) : (storeKeys (upsert1 s r)).Nodup := by
  rw [storeKeys_upsert1]
  by_cases hmem : r.message_id ∈ storeKeys s
  · rw [if_pos hmem]; exact h
  · rw [if_neg hmem]
    simp only [List.nodup_append]
    exact ⟨h, List.nodup_singleton _,
      fun a ha hb => hmem (by rwa [List.mem_singleton.mp hb] at ha)⟩

theorem storeKeys_nodup_upsert_emails (recs : List Rec) : ∀ (s : List Rec),
    (storeKeys s).Nodup → (storeKeys (upsert_emails recs s)).Nodup := by
  induction recs with
  | nil => intro s h; exact h
  | cons r t ih => intro s h; exact ih (upsert1 s r) (storeKeys_nodup_upsert1 s r h)

theorem upsert_emails_eq_map (recs : List Rec) : ∀ (s : List Rec),
    (∀ r ∈ recs, r.message_id ∈ storeKeys s) →
    upsert_emails recs s = s.map (fun x => (lastAssign recs x.message_id).getD x) := by
  induction recs with
  | nil =>
    intro s _
    have : ∀ x ∈ s, (lastAssign [] x.message_id).getD x = x := by
      intro x _; simp [lastAssign]
    calc upsert_emails [] s = s := rfl
      _ = s.map id := (List.map_id s).symm
      _ = s.map (fun x => (lastAssign [] x.message_id).getD x) :=
          (List.map_congr_left (by simpa using this)).symm
  | cons r t ih =>
    intro s h
    have hr : r.message_id ∈ storeKeys s := h r (List.mem_cons_self r t)
    have hrep : upsert1 s r = s.map (fun x => if recIdMatches r.message_id x then r else x) := by
      unfold upsert1
      rw [if_pos (any_recIdMatches_iff.mpr hr)]
    have hkeys : storeKeys (upsert1 s r) = storeKeys s := by
      rw [storeKeys_upsert1, if_pos hr]
    have ht : ∀ q ∈ t, q.message_id ∈ storeKeys (upsert1 s r) :=
      fun q hq => hkeys ▸ h q (List.mem_cons_of_mem r hq)
    rw [show upsert_emails (r :: t) s = upsert_emails t (upsert1 s r) from rfl, ih _ ht, hrep,
      List.map_map]
    apply List.map_congr_left
    intro x _
    by_cases hc : recIdMatches r.message_id x
    · have hid : x.message_id = r.message_id := by simpa [recIdMatches] using hc
      have hfil : (r :: t).filter (recIdMatches x.message_id) =
          r :: t.filter (recIdMatches x.message_id) := by
        rw [List.filter_cons]
        simp [recIdMatches, hid]
      simp only [Function.comp, hc, if_pos]
      unfold lastAssign
      rw [hfil, getLast?_cons_or, hid]
      cases hlast : (t.filter (recIdMatches r.message_id)).getLast? <;> simp [Option.or]
    · have hid : x.message_id ≠ r.message_id := by simpa [recIdMatches] using hc
      have hne : recIdMatches x.message_id r = false := by
        simp only [recIdMatches, beq_eq_false_iff_ne, ne_eq]
        exact fun hcon => hid hcon.symm
      have hfil : (r :: t).filter (recIdMatches x.message_id) =
          t.filter (recIdMatches x.message_id) := by
        rw [List.filter_cons]
        simp [hne]
      simp only [Function.comp, hc, if_neg, Bool.false_eq_true, not_false_iff]
      unfold lastAssign
      rw [hfil]

theorem eq_of_mem_upsert_emails (recs : List Rec) : ∀ (s : List Rec) (x q : Rec),
    x ∈ upsert_emails recs s → lastAssign recs x.message_id = some q → x = q := by
  induction recs using List.reverseRecOn with
  | nil => intro s x q _ hq; simp [lastAssign] at hq
  | append_singleton t r ih =>
    intro s x q hx hq
    rw [show upsert_emails (t ++ [r]) s = upsert1 (upsert_emails t s) r by
      unfold upsert_emails; rw [List.foldl_append]; rfl] at hx
    have hlast : lastAssign (t ++ [r]) x.message_id =
        if recIdMatches x.message_id r = true then some r
        else lastAssign t x.message_id := by
      unfold lastAssign
      rw [List.filter_append, List.getLast?_append]
      by_cases hc : recIdMatches x.message_id r = true <;> simp [hc, Option.or]
    unfold upsert1 at hx
    split at hx
    · rcases List.mem_map.mp hx with ⟨y, hy, hxy⟩
      by_cases hc : recIdMatches r.message_id y = true
      · rw [if_pos hc] at hxy
        subst hxy
        have hself : recIdMatches r.message_id r = true := by simp [recIdMatches]
        rw [hlast, if_pos hself] at hq
        exact Option.some_injective _ hq
      · rw [if_neg hc] at hxy
        subst hxy
        have hyr : y.message_id ≠ r.message_id := by simpa [recIdMatches] using hc
        have hne : recIdMatches y.message_id r = false := by
          simp only [recIdMatches, beq_eq_false_iff_ne, ne_eq]
          exact fun hcon => hyr hcon.symm
        rw [hlast, hne] at hq
        simp only [Bool.false_eq_true, if_false] at hq
        exact ih s y q hy hq
    · rename_i hany
      rcases List.mem_append.mp hx with hy | hy
      · have hne : recIdMatches x.message_id r = false := by
          rcases Bool.eq_false_or_eq_true (recIdMatches x.message_id r) with h0 | h0
          · exfalso
            have hid : x.message_id = r.message_id := by
              have h1 : r.message_id = x.message_id := by
                simpa [recIdMatches] using h0
              exact h1.symm
            exact hany (List.any_eq_true.mpr ⟨x, hy, by simp [recIdMatches, hid]⟩)
          · exact h0
        rw [hlast, hne] at hq
        simp only [Bool.false_eq_true, if_false] at hq
        exact ih s x q hy hq
      · have hxr : x = r := by simpa using hy
        subst hxr
        have hself : recIdMatches x.message_id x = true := by simp [recIdMatches]
        rw [hlast, if_pos hself] at hq
        exact Option.some_injective _ hq

theorem upsert_emails_idem (recs s : List Rec) :
    upsert_emails recs (upsert_emails recs s) = upsert_emails recs s := by
  have hmem : ∀ r ∈ recs, r.message_id ∈ storeKeys (upsert_emails recs s) :=
    fun r hr => mem_storeKeys_upsert_emails recs s r hr
  rw [upsert_emails_eq_map recs _ hmem]
  have : ∀ x ∈ upsert_emails recs s, (lastAssign recs x.message_id).getD x = x := by
    intro x hx
    cases hlast : lastAssign recs x.message_id with
    | none => rfl
    | some q => simpa using (eq_of_mem_upsert_emails recs s x q hx hlast).symm
  calc (upsert_emails recs s).map (fun x => (lastAssign recs x.message_id).getD x)
      = (upsert_emails recs s).map id := List.map_congr_left (by simpa using this)
    _ = upsert_emails recs s := List.map_id _

theorem storeKeys_upsert_emails_same_id (k : String) : ∀ (recs : List Rec),
    (∀ r ∈ recs, r.message_id = k) → recs ≠ [] → ∀ (s : List Rec),
    storeKeys (upsert_emails recs s) =
      if k ∈ storeKeys s then storeKeys s else storeKeys s ++ [k] := by
  intro recs
  induction recs with
  | nil => intro _ hne; cases hne rfl
  | cons r t ih =>
    intro hall _ s
    have hrk : r.message_id = k := hall r (List.mem_cons_self r t)
    have h1 : storeKeys (upsert1 s r) =
        if k ∈ storeKeys s then storeKeys s else storeKeys s ++ [k] := by
      rw [storeKeys_upsert1, hrk]
    by_cases ht : t = []
    · subst ht; exact h1
    · have ih' := ih (fun q hq => hall q (List.mem_cons_of_mem r hq)) ht (upsert1 s r)
      rw [show upsert_emails (r :: t) s = upsert_emails t (upsert1 s r) from rfl, ih', h1]
      have hk : k ∈ (if k ∈ storeKeys s then storeKeys s else storeKeys s ++ [k]) := by
        by_cases hmem : k ∈ storeKeys s
        · rw [if_pos hmem]; exact hmem
        · rw [if_neg hmem]; simp
      rw [if_pos hk]

theorem countP_keys (s : List Rec) (k : String) :
    s.countP (recIdMatches k) = (storeKeys s).count k := by
  rw [List.count_eq_countP, storeKeys, List.countP_map]
  rfl

theorem storeLookup_upsert_emails_same_id (recs s : List Rec) (k : String)
    (hall : ∀ r ∈ recs, r.message_id = k) (hne : recs ≠ []) :
    storeLookup (upsert_emails recs s) k = recs.getLast? := by
  obtain ⟨r0, hr0⟩ : ∃ r0, r0 ∈ recs := by
    cases recs with
    | nil => cases hne rfl
    | cons a t => exact ⟨a, List.mem_cons_self a t⟩
  have hkmem : k ∈ storeKeys (upsert_emails recs s) :=
    hall r0 hr0 ▸ mem_storeKeys_upsert_emails recs s r0 hr0
  obtain ⟨x, hxmem, hxp⟩ : ∃ x ∈ upsert_emails recs s, recIdMatches k x = true := by
    rcases List.mem_map.mp hkmem with ⟨x, hx, hxk⟩
    exact ⟨x, hx, by simp [recIdMatches, hxk]⟩
  cases hg : recs.getLast? with
  | none => exact absurd (List.getLast?_eq_none.mp hg) hne
  | some q =>
    have hlaK : lastAssign recs k = some q := by
      have hfil : recs.filter (recIdMatches k) = recs :=
        List.filter_eq_self.mpr (fun a ha => by simp [recIdMatches, hall a ha])
      rw [lastAssign, hfil, hg]
    unfold storeLookup
    cases hf : (upsert_emails recs s).find? (recIdMatches k) with
    | none =>
      have hsome := List.find?_isSome.mpr ⟨x, hxmem, hxp⟩
      rw [hf] at hsome
      cases hsome
    | some y =>
      have hymem : y ∈ upsert_emails recs s := List.mem_of_find?_eq_some hf
      have hyk : y.message_id = k := by simpa [recIdMatches] using List.find?_some hf
      have hy : y = q :=
        eq_of_mem_upsert_emails recs s y q hymem (by rw [hyk]; exact hlaK)
      rw [hy]

/-- C2: the store keeps at most one record per message identifier — upserting any batch
preserves key uniqueness, and a (nonempty) batch of records all carrying identifier `k`
leaves exactly one record under `k`, whose fields are those of the batch's last record. -/
theorem C2_store_unique_per_id :
    (∀ (recs s : List Rec), (storeKeys s).Nodup → (storeKeys (upsert_emails recs s)).Nodup)
    ∧
    (∀ (recs s : List Rec) (k : String), (storeKeys s).Nodup → recs ≠ [] →
      (∀ r ∈ recs, r.message_id = k) →
      (upsert_emails recs s).countP (recIdMatches k) = 1 ∧
      storeLookup (upsert_emails recs s) k = recs.getLast?) := by
  constructor
  · exact fun recs s h => storeKeys_nodup_upsert_emails recs s h
  · intro recs s k hnd hne hall
    refine ⟨?_, storeLookup_upsert_emails_same_id recs s k hall hne⟩
    rw [countP_keys, storeKeys_upsert_emails_same_id k recs hall hne s]
    by_cases hk : k ∈ storeKeys s
    · rw [if_pos hk]
      exact List.count_eq_one_of_mem hnd hk
    · rw [if_neg hk, List.count_append, List.count_eq_zero_of_not_mem hk]
      simp [List.count_singleton]

def wRecA : Rec :=
  ⟨"k1", "s1", "sub1", "b1", "2024-01-01T00:00:00", "Not urgent", "Neutral", "", "", "d1",
    "pending"⟩

def wRecB : Rec :=
  ⟨"k1", "s2", "sub2", "b2", "2024-01-02T00:00:00", "Urgent", "Negative", "", "", "d2",
    "pending"⟩

/-- Witness for C2 at a concrete two-record batch sharing one identifier. -/
theorem C2_store_unique_per_id_witness :
    ((storeKeys ([] : List Rec)).Nodup ∧ ([wRecA, wRecB] : List Rec) ≠ [] ∧
      (∀ r ∈ [wRecA, wRecB], r.message_id = "k1")) ∧
    ((upsert_emails [wRecA, wRecB] []).countP (recIdMatches "k1") = 1 ∧
      storeLookup (upsert_emails [wRecA, wRecB] []) "k1" = [wRecA, wRecB].getLast?) :=
  ⟨⟨by decide, by decide, by decide⟩,
    C2_store_unique_per_id.2 [wRecA, wRecB] [] "k1" (by decide) (by decide) (by decide)⟩

/-! ### Claim C1 – idempotence of ingestion -/

/-- A regex oracle with no matches (what `re.findall` returns on the bodies used in the
concrete inputs below). -/
def rexNone : Re := ⟨fun _ => [], fun _ => []⟩

/-- A fixed process hash seed (CPython's `hash` within one interpreter run). -/
def hashConst0 : String → Int := fun _ => 0

/-- A raw email with no received timestamp: normalization stamps it with the current
time of the run. -/
def c1raw : RawEmail := ⟨some "m", some "alice", some "subj", some "hello", none⟩

/-- C1 fails as stated: re-ingesting the same batch at a later time overwrites the
record's `received_at` with the second run's clock value, so the store state is not
identical (the record count is, but a field changed). -/
theorem C1_counterexample :
    ingest_latest rexNone hashConst0 "2024-01-02T00:00:00" [c1raw]
        (ingest_latest rexNone hashConst0 "2024-01-01T00:00:00" [c1raw] []) ≠
      ingest_latest rexNone hashConst0 "2024-01-01T00:00:00" [c1raw] [] := by
  decide

theorem buildRec_indep_now (rex : Re) (pyhash : String → Int) (now₁ now₂ : String)
    (e : RawEmail) (h : pyTruthy e.received_at = true) :
    buildRec rex pyhash now₁ e = buildRec rex pyhash now₂ e := by
  have hnorm : normalize pyhash now₁ e = normalize pyhash now₂ e := by
    unfold normalize
    cases he : e.received_at with
    | none => rw [he] at h; simp [pyTruthy] at h
    | some sv =>
      have hsv : ¬ sv = "" := by
        rw [he] at h
        simpa [pyTruthy] using h
      simp [pyOrD, he, hsv]
  unfold buildRec
  rw [hnorm]

theorem buildRec_message_id (rex : Re) (pyhash : String → Int) (now : String)
    (e : RawEmail) :
    (buildRec rex pyhash now e).message_id = pyOrD e.message_id (derivedId pyhash e) := rfl

/-- C1 amended: within one process (one `hash` seed), re-ingesting a batch whose raw
emails all carry a truthy received timestamp reproduces the store state exactly; and for
every batch — timestamps present or not — the second ingestion changes no identifiers and
adds no records (the key sequence, hence the record count, is unchanged). -/
theorem C1_amended :
    (∀ (rex : Re) (pyhash : String → Int) (now₁ now₂ : String) (batch : List RawEmail)
        (s : List Rec),
      (∀ e ∈ batch, pyTruthy e.received_at = true) →
      ingest_latest rex pyhash now₂ batch (ingest_latest rex pyhash now₁ batch s) =
        ingest_latest rex pyhash now₁ batch s)
    ∧
    (∀ (rex : Re) (pyhash : String → Int) (now₁ now₂ : String) (batch : List RawEmail)
        (s : List Rec),
      storeKeys (ingest_latest rex pyhash now₂ batch
          (ingest_latest rex pyhash now₁ batch s)) =
        storeKeys (ingest_latest rex pyhash now₁ batch s)) := by
  constructor
  · intro rex pyhash now₁ now₂ batch s h
    cases batch with
    | nil => rfl
    | cons e t =>
      have hmap : (e :: t).map (buildRec rex pyhash now₂) =
          (e :: t).map (buildRec rex pyhash now₁) :=
        List.map_congr_left (fun e' he' => buildRec_indep_now rex pyhash now₂ now₁ e' (h e' he'))
      unfold ingest_latest
      rw [hmap]
      simp only [List.map_cons, List.isEmpty_cons, Bool.false_eq_true, if_false]
      exact upsert_emails_idem _ _
  · intro rex pyhash now₁ now₂ batch s
    cases batch with
    | nil => rfl
    | cons e t =>
      unfold ingest_latest
      simp only [List.map_cons, List.isEmpty_cons, Bool.false_eq_true, if_false]
      apply storeKeys_upsert_emails_of_sub
      intro r hr
      have hr' : r ∈ ((buildRec rex pyhash now₂ e) :: t.map (buildRec rex pyhash now₂)) :=
        (List.perm_insertionSort batchLe _).mem_iff.mp hr
      have hr'' : r ∈ (e :: t).map (buildRec rex pyhash now₂) := by
        simpa using hr'
      rcases List.mem_map.mp hr'' with ⟨e', he', rfl⟩
      have hid : (buildRec rex pyhash now₂ e').message_id =
          (buildRec rex pyhash now₁ e').message_id := rfl
      rw [hid]
      have hb1 : buildRec rex pyhash now₁ e' ∈
          sortBatch ((e :: t).map (buildRec rex pyhash now₁)) := by
        rw [sortBatch, (List.perm_insertionSort batchLe _).mem_iff]
        exact List.mem_map.mpr ⟨e', he', rfl⟩
      have := mem_storeKeys_upsert_emails
        (sortBatch ((e :: t).map (buildRec rex pyhash now₁))) s _ hb1
      simpa [List.map_cons] using this

/-- A raw email whose received timestamp is present (truthy). -/
def c1rawT : RawEmail :=
  ⟨some "m", some "alice", some "subj", some "hello", some "2024-01-01T00:00:00"⟩

/-- Witness for the amended C1 at a concrete batch with a present timestamp. -/
theorem C1_amended_witness :
    (∀ e ∈ [c1rawT], pyTruthy e.received_at = true) ∧
    ingest_latest rexNone hashConst0 "T2" [c1rawT]
        (ingest_latest rexNone hashConst0 "T1" [c1rawT] []) =
      ingest_latest rexNone hashConst0 "T1" [c1rawT] [] :=
  ⟨by decide, C1_amended.1 rexNone hashConst0 "T1" "T2" [c1rawT] [] (by decide)⟩

/-! ### Claim C4 – the derived message identifier is not stable across executions -/

/-- C4 (code divergence): the fallback identifier is built from CPython's builtin
`hash(body)`, which is salted per interpreter process (`PYTHONHASHSEED`), so two program
executions can derive different identifiers from the identical sender, subject and body.
Exhibited by two hash functions (two seeds) giving different results on the same raw
email. -/
theorem C4_derived_id_not_process_stable :
    ∃ h₁ h₂ : String → Int,
      derivedId h₁ ⟨none, some "alice", some "subj", some "hello", none⟩ ≠
        derivedId h₂ ⟨none, some "alice", some "subj", some "hello", none⟩ :=
  ⟨fun _ => 0, fun _ => 1, by decide⟩

/-! ### Claim C3 – the ingestion batch sort -/

def mkSortRec (id pri ts : String) : Rec :=
  ⟨id, "", "", "", ts, pri, "Neutral", "", "", "", "pending"⟩

/-- C3 fails as stated: in the same (Urgent) priority tier, a record whose timestamp
fails to parse gets tiebreak key `0` and is placed BEFORE a record whose timestamp parses
to a pre-epoch instant (negated timestamp `86400 > 0`), not after all parsed records. -/
theorem C3_counterexample :
    parseIso (mkSortRec "old" "Urgent" "1969-12-31T00:00:00").received_at = some (-86400) ∧
    parseIso (mkSortRec "bad" "Urgent" "not-a-date").received_at = none ∧
    (mkSortRec "old" "Urgent" "1969-12-31T00:00:00").priority =
      (mkSortRec "bad" "Urgent" "not-a-date").priority ∧
    sortBatch [mkSortRec "old" "Urgent" "1969-12-31T00:00:00",
               mkSortRec "bad" "Urgent" "not-a-date"] =
      [mkSortRec "bad" "Urgent" "not-a-date",
       mkSortRec "old" "Urgent" "1969-12-31T00:00:00"] := by
  decide

/-- C3 amended: the batch sort is total (a permutation, parse failure never raises),
primary key priority (Urgent first), secondary key the `ts_key` with fallback `0` for
unparseable timestamps — so within a tier an unparseable record is placed after the
records with post-epoch timestamps and before those with pre-epoch timestamps. -/
theorem C3_amended : ∀ l : List Rec,
    (sortBatch l).Perm l ∧
    (sortBatch l).Pairwise (fun a b => priRank a ≤ priRank b) ∧
    (sortBatch l).Pairwise (fun a b => priRank a = priRank b → tsKey a ≤ tsKey b) ∧
    (sortBatch l).Pairwise (fun a b => priRank a = priRank b →
      parseIso a.received_at = none → ∀ tb, parseIso b.received_at = some tb → tb ≤ 0) ∧
    (sortBatch l).Pairwise (fun a b => priRank a = priRank b →
      parseIso b.received_at = none → ∀ ta, parseIso a.received_at = some ta → 0 ≤ ta) := by
  intro l
  have hs : (sortBatch l).Pairwise batchLe := List.sorted_insertionSort batchLe l
  have key : ∀ {a b : Rec}, batchLe a b →
      priRank a ≤ priRank b ∧ (priRank a = priRank b → tsKey a ≤ tsKey b) := by
    intro a b hab
    unfold batchLe pairLeB sort_key at hab
    simp only [Bool.or_eq_true, Bool.and_eq_true, decide_eq_true_eq] at hab
    constructor
    · rcases hab with h | ⟨h, _⟩
      · exact le_of_lt h
      · exact le_of_eq h
    · intro hpe
      rcases hab with h | ⟨_, h2⟩
      · omega
      · exact h2
  refine ⟨List.perm_insertionSort batchLe l, hs.imp (fun hab => (key hab).1),
    hs.imp (fun hab => (key hab).2), hs.imp ?_, hs.imp ?_⟩
  · intro a b hab hpe hnone tb htb
    have h2 := (key hab).2 hpe
    simp only [tsKey, hnone, htb] at h2
    omega
  · intro a b hab hpe hnone ta hta
    have h2 := (key hab).2 hpe
    simp only [tsKey, hnone, hta] at h2
    omega

/-! ### Claim C6 – fetch ordering -/

theorem priRank_eq_zero {r : Rec} : priRank r = 0 ↔ r.priority = "Urgent" := by
  unfold priRank
  split <;> simp_all

/-- C6: `fetch` with `order_by_priority = true` never places a Not-urgent record before an
Urgent one and is non-increasing on parseable received timestamps within a priority tier;
with `false` it is non-increasing on parseable received timestamps outright; both are
capped at `limit`. -/
theorem C6_fetch_order : ∀ (s : List Rec) (limit : Nat),
    (fetch_emails s true limit).length ≤ limit ∧
    (fetch_emails s true limit).Pairwise
      (fun a b => b.priority = "Urgent" → a.priority = "Urgent") ∧
    (fetch_emails s true limit).Pairwise (fun a b => priRank a = priRank b →
      ∀ ta tb, parseIso a.received_at = some ta → parseIso b.received_at = some tb →
        tb ≤ ta) ∧
    (fetch_emails s false limit).length ≤ limit ∧
    (fetch_emails s false limit).Pairwise (fun a b =>
      ∀ ta tb, parseIso a.received_at = some ta → parseIso b.received_at = some tb →
        tb ≤ ta) := by
  intro s limit
  have hs1 : (s.insertionSort fetchLe1).Pairwise fetchLe1 :=
    List.sorted_insertionSort fetchLe1 s
  have hs2 : (s.insertionSort fetchLe2).Pairwise fetchLe2 :=
    List.sorted_insertionSort fetchLe2 s
  have ht : fetch_emails s true limit = (s.insertionSort fetchLe1).take limit := rfl
  have hf : fetch_emails s false limit = (s.insertionSort fetchLe2).take limit := rfl
  have hp1 : (fetch_emails s true limit).Pairwise fetchLe1 := by
    rw [ht]; exact List.Pairwise.sublist (List.take_sublist _ _) hs1
  have hp2 : (fetch_emails s false limit).Pairwise fetchLe2 := by
    rw [hf]; exact List.Pairwise.sublist (List.take_sublist _ _) hs2
  refine ⟨by rw [ht, List.length_take]; exact inf_le_left, hp1.imp ?_, hp1.imp ?_,
    by rw [hf, List.length_take]; exact inf_le_left, hp2.imp ?_⟩
  · intro a b h hb
    unfold fetchLe1 fetchLe1B at h
    simp only [Bool.or_eq_true, Bool.and_eq_true, decide_eq_true_eq] at h
    have hbr : priRank b = 0 := priRank_eq_zero.mpr hb
    rcases h with h | ⟨h, _⟩
    · exact absurd (hbr ▸ h) (Nat.not_lt_zero _)
    · exact priRank_eq_zero.mp (h.trans hbr)
  · intro a b h hpe ta tb hta htb
    unfold fetchLe1 fetchLe1B at h
    simp only [Bool.or_eq_true, Bool.and_eq_true, decide_eq_true_eq] at h
    rcases h with h | ⟨_, hd⟩
    · omega
    · unfold fetchKeyOpt at hd
      rw [hta, htb] at hd
      simpa [dtDescLeB] using hd
  · intro a b h ta tb hta htb
    unfold fetchLe2 fetchLe2B fetchKeyOpt at h
    rw [hta, htb] at h
    simpa [dtDescLeB] using h

/-! ### Claim C7 – knowledge-base retrieval -/

theorem filter_orderedInsert_pos (r : α → α → Prop) [DecidableRel r]
    (p : α → Bool) (x : α) (hx : p x = true) : ∀ (t : List α),
    (∀ y ∈ t, p y = true → r x y) →
    (t.orderedInsert r x).filter p = x :: t.filter p := by
  intro t
  induction t with
  | nil => intro _; simp [List.orderedInsert, hx]
  | cons y ys ih =>
    intro h
    rw [List.orderedInsert]
    by_cases hr : r x y
    · rw [if_pos hr]
      simp [List.filter_cons, hx]
    · rw [if_neg hr]
      have hpy : p y = false := by
        rcases Bool.eq_false_or_eq_true (p y) with h0 | h0
        · exact absurd (h y (List.mem_cons_self y ys) h0) hr
        · exact h0
      rw [List.filter_cons, hpy]
      simp only [Bool.false_eq_true, if_false]
      rw [ih (fun z hz hpz => h z (List.mem_cons_of_mem y hz) hpz), List.filter_cons, hpy]
      simp

theorem filter_orderedInsert_neg (r : α → α → Prop) [DecidableRel r]
    (p : α → Bool) (x : α) (hx : p x = false) : ∀ (t : List α),
    (t.orderedInsert r x).filter p = t.filter p := by
  intro t
  induction t with
  | nil => simp [List.orderedInsert, hx]
  | cons y ys ih =>
    rw [List.orderedInsert]
    by_cases hr : r x y
    · rw [if_pos hr]
      simp [List.filter_cons, hx]
    · rw [if_neg hr]
      rw [List.filter_cons, List.filter_cons, ih]

/-- Stability of the sort on a class of mutually tied elements: filtering the sorted list
to the class gives the class in its original order. -/
theorem filter_insertionSort (r : α → α → Prop) [DecidableRel r] (p : α → Bool)
    (hmut : ∀ a b, p a = true → p b = true → r a b) : ∀ l : List α,
    (l.insertionSort r).filter p = l.filter p := by
  intro l
  induction l with
  | nil => rfl
  | cons x xs ih =>
    rw [List.insertionSort]
    by_cases hx : p x = true
    · rw [filter_orderedInsert_pos r p x hx _ (fun y _ hpy => hmut x y hx hpy), ih,
        List.filter_cons, hx]
      simp
    · have hx' : p x = false := by
        rcases Bool.eq_false_or_eq_true (p x) with h0 | h0
        · exact absurd h0 hx
        · exact h0
      rw [filter_orderedInsert_neg r p x hx', ih, List.filter_cons, hx']
      simp

theorem retrieve_none (body : String) (top_k : Nat) :
    retrieve_relevant_kb none body top_k = [] := by
  unfold retrieve_relevant_kb
  by_cases h : (tokSet body).isEmpty = true <;> simp [h]

theorem retrieve_empty_q (kb : Option (List (String × String))) (body : String)
    (top_k : Nat) (h : tokSet body = []) : retrieve_relevant_kb kb body top_k = [] := by
  unfold retrieve_relevant_kb
  simp [h]

theorem retrieve_some (docs : List (String × String)) (body : String) (top_k : Nat)
    (h : tokSet body ≠ []) :
    retrieve_relevant_kb (some docs) body top_k =
      ((kbCandidates docs (tokSet body)).insertionSort scoreGe).take top_k := by
  unfold retrieve_relevant_kb
  have : (tokSet body).isEmpty = false := by simpa [List.isEmpty_iff] using h
  simp [this]

/-- C7: retrieval returns `[]` for a tokenless query or a missing KB directory; otherwise
every returned match has a positive score equal to the size of the intersection of the
query's and the document's token sets, at most `top_k` matches are returned, scores are
non-increasing, and ties stay in document enumeration order (each equal-score class of
the result is a prefix-preserving sublist of the candidate list). -/
theorem C7_retrieve : ∀ (kb : Option (List (String × String))) (body : String)
    (top_k : Nat),
    ((tokSet body = [] → retrieve_relevant_kb kb body top_k = []) ∧
     (kb = none → retrieve_relevant_kb kb body top_k = [])) ∧
    (retrieve_relevant_kb kb body top_k).length ≤ top_k ∧
    (retrieve_relevant_kb kb body top_k).Pairwise (fun a b => b.score ≤ a.score) ∧
    (∀ docs, kb = some docs →
      (∀ m ∈ retrieve_relevant_kb kb body top_k,
        0 < m.score ∧ ∃ p ∈ docs, m.source = p.1 ∧ m.text = p.2 ∧
          m.score = (tokSet body ∩ tokSet p.2).length) ∧
      (∀ sc : Nat,
        ((retrieve_relevant_kb kb body top_k).filter (fun m => m.score == sc)).Sublist
          ((kbCandidates docs (tokSet body)).filter (fun m => m.score == sc)))) := by
  intro kb body top_k
  refine ⟨⟨fun h => retrieve_empty_q kb body top_k h,
    fun h => by rw [h]; exact retrieve_none body top_k⟩, ?_⟩
  by_cases hq : tokSet body = []
  · rw [retrieve_empty_q kb body top_k hq]
    exact ⟨by simp, List.Pairwise.nil,
      fun docs _ => ⟨by simp, fun sc => by simp⟩⟩
  · cases kb with
    | none =>
      rw [retrieve_none body top_k]
      exact ⟨by simp, List.Pairwise.nil,
        fun docs hd => by cases hd⟩
    | some docs =>
      rw [retrieve_some docs body top_k hq]
      have hsorted : ((kbCandidates docs (tokSet body)).insertionSort scoreGe).Pairwise
          scoreGe := List.sorted_insertionSort scoreGe _
      refine ⟨by rw [List.length_take]; exact inf_le_left,
        List.Pairwise.sublist (List.take_sublist _ _) hsorted, ?_⟩
      intro docs' hdocs'
      have hdd : docs' = docs := by injection hdocs' with h; exact h.symm
      subst hdd
      constructor
      · intro m hm
        have hmC : m ∈ kbCandidates docs' (tokSet body) := by
          have h1 : m ∈ (kbCandidates docs' (tokSet body)).insertionSort scoreGe :=
            (List.take_sublist _ _).subset hm
          exact (List.perm_insertionSort scoreGe _).mem_iff.mp h1
        have hmC' := hmC
        simp only [kbCandidates, List.mem_filterMap] at hmC'
        rcases hmC' with ⟨p, hp, hpm⟩
        split at hpm
        · cases hpm
        · rename_i hsc
          injection hpm with hpm'
          subst hpm'
          exact ⟨Nat.pos_of_ne_zero hsc, p, hp, rfl, rfl, rfl⟩
      · intro sc
        have hsub : (((kbCandidates docs' (tokSet body)).insertionSort scoreGe).take
            top_k).filter (fun m => m.score == sc) |>.Sublist
            (((kbCandidates docs' (tokSet body)).insertionSort scoreGe).filter
              (fun m => m.score == sc)) :=
          List.Sublist.filter _ (List.take_sublist _ _)
        have heq : ((kbCandidates docs' (tokSet body)).insertionSort scoreGe).filter
            (fun m => m.score == sc) =
            (kbCandidates docs' (tokSet body)).filter (fun m => m.score == sc) := by
          apply filter_insertionSort
          intro a b ha hb
          have ha' : a.score = sc := by simpa using ha
          have hb' : b.score = sc := by simpa using hb
          unfold scoreGe
          omega
        rw [heq] at hsub
        exact hsub

/-! ### Claim C8 – sentiment: stripping the combined text does not affect word matches -/

theorem pyIsSpace_iff {c : Char} :
    pyIsSpace c = true ↔ c.toNat ∈ [32, 9, 10, 13, 11, 12] := by
  simp [pyIsSpace]

theorem pyLowerChar_of_space {c : Char} (h : pyIsSpace c = true) : pyLowerChar c = c := by
  have h' := pyIsSpace_iff.mp h
  have hn : ¬(65 ≤ c.toNat ∧ c.toNat ≤ 90) := by
    simp only [List.mem_cons, List.not_mem_nil, or_false] at h'
    rcases h' with h1 | h1 | h1 | h1 | h1 | h1 <;> omega
  simp [pyLowerChar, hn]

theorem pyStripL_within (l : List Char) : pyStripL l <:+: l := by
  unfold pyStripL
  have h1 : l.dropWhile pyIsSpace <:+ l := List.dropWhile_suffix _
  have h2 : ((l.dropWhile pyIsSpace).reverse.dropWhile pyIsSpace).reverse <+:
      l.dropWhile pyIsSpace := by
    rw [← List.reverse_suffix, List.reverse_reverse]
    exact List.dropWhile_suffix _
  exact h2.isInfix.trans h1.isInfix

theorem exists_infix_of_infix_map {f : α → β} {w : List β} {l : List α}
    (h : w <:+: l.map f) : ∃ m, m <:+: l ∧ m.map f = w := by
  rcases h with ⟨s, t, hst⟩
  have h1 : l.map f = s ++ (w ++ t) := by rw [← hst]; simp [List.append_assoc]
  rcases List.map_eq_append_iff.mp h1 with ⟨l₁, l₂, hl, _, hm2⟩
  rcases List.map_eq_append_iff.mp hm2 with ⟨m, l₃, hl₂, hmw, _⟩
  exact ⟨m, ⟨l₁, l₃, by rw [hl, hl₂]; simp [List.append_assoc]⟩, hmw⟩

theorem dropWhile_append_mid (p : α → Bool) (m b : List α) (c : α) (hc : p c = false) :
    ∀ a : List α,
    (a ++ ((c :: m) ++ b)).dropWhile p = a.dropWhile p ++ ((c :: m) ++ b) := by
  intro a
  induction a with
  | nil => simp [List.dropWhile_cons, hc]
  | cons x xs ih =>
    rw [List.cons_append, List.dropWhile_cons, List.dropWhile_cons]
    by_cases hx : p x = true
    · rw [if_pos hx, if_pos hx]
      exact ih
    · rw [if_neg hx, if_neg hx]
      simp

theorem infix_pyStripL_of_mid {m : List Char} (a b : List Char) (hm : m ≠ [])
    (hh : ∀ c, m.head? = some c → pyIsSpace c = false)
    (hl : ∀ c, m.getLast? = some c → pyIsSpace c = false) :
    m <:+: pyStripL (a ++ (m ++ b)) := by
  obtain ⟨c, m', rfl⟩ : ∃ c m', m = c :: m' := by
    cases m with
    | nil => cases hm rfl
    | cons c m' => exact ⟨c, m', rfl⟩
  have hc : pyIsSpace c = false := hh c rfl
  unfold pyStripL
  rw [dropWhile_append_mid pyIsSpace m' b c hc a]
  have hrev : (a.dropWhile pyIsSpace ++ ((c :: m') ++ b)).reverse =
      b.reverse ++ ((c :: m').reverse ++ (a.dropWhile pyIsSpace).reverse) := by
    simp [List.reverse_append, List.append_assoc]
  rw [hrev]
  obtain ⟨d, w', hw⟩ : ∃ d w', (c :: m').reverse = d :: w' := by
    cases hrv : (c :: m').reverse with
    | nil =>
      exfalso
      have h0 := congrArg List.length hrv
      simp at h0
    | cons d w' => exact ⟨d, w', rfl⟩
  have hd : pyIsSpace d = false := by
    apply hl
    rw [← List.head?_reverse, hw]
    rfl
  rw [hw, dropWhile_append_mid pyIsSpace w' (a.dropWhile pyIsSpace).reverse d hd b.reverse]
  have hback : (b.reverse.dropWhile pyIsSpace ++
        ((d :: w') ++ (a.dropWhile pyIsSpace).reverse)).reverse =
      a.dropWhile pyIsSpace ++
        ((c :: m') ++ (b.reverse.dropWhile pyIsSpace).reverse) := by
    rw [← hw]
    simp [List.reverse_append, List.append_assoc]
  rw [hback]
  exact ⟨a.dropWhile pyIsSpace, (b.reverse.dropWhile pyIsSpace).reverse,
    by simp [List.append_assoc]⟩

theorem infix_lower_strip_iff (w l : List Char) (hne : w ≠ [])
    (hh : ∀ c, w.head? = some c → pyIsSpace c = false)
    (hl : ∀ c, w.getLast? = some c → pyIsSpace c = false) :
    w <:+: pyLower (pyStripL l) ↔ w <:+: pyLower l := by
  constructor
  · intro h
    exact h.trans (List.IsInfix.map pyLowerChar (pyStripL_within l))
  · intro h
    rcases exists_infix_of_infix_map h with ⟨m, hm, hmw⟩
    have hmne : m ≠ [] := by
      intro h0
      subst h0
      exact hne hmw.symm
    obtain ⟨c, m', rfl⟩ : ∃ c m', m = c :: m' := by
      cases m with
      | nil => cases hmne rfl
      | cons c m' => exact ⟨c, m', rfl⟩
    have hch : pyIsSpace c = false := by
      rcases Bool.eq_false_or_eq_true (pyIsSpace c) with h0 | h0
      · exfalso
        have hwh : w.head? = some c := by
          rw [← hmw]
          simp [pyLowerChar_of_space h0]
        rw [hh c hwh] at h0
        cases h0
      · exact h0
    obtain ⟨e, he⟩ : ∃ e, (c :: m').getLast? = some e := by
      cases hgl : (c :: m').getLast? with
      | none => exact absurd (List.getLast?_eq_none.mp hgl) (by simp)
      | some e => exact ⟨e, rfl⟩
    have heb : pyIsSpace e = false := by
      rcases Bool.eq_false_or_eq_true (pyIsSpace e) with h0 | h0
      · exfalso
        have hwl : w.getLast? = some e := by
          rw [← hmw, List.getLast?_eq_head?_reverse, ← List.map_reverse, List.head?_map,
            List.head?_reverse, he]
          simp [pyLowerChar_of_space h0]
        rw [hl e hwl] at h0
        cases h0
      · exact h0
    rcases hm with ⟨s, t, hst⟩
    have hldec : l = s ++ ((c :: m') ++ t) := by rw [← hst]; simp [List.append_assoc]
    have hmid : (c :: m') <:+: pyStripL l := by
      rw [hldec]
      refine infix_pyStripL_of_mid s t (by simp) ?_ ?_
      · intro c' hc'
        injection hc' with hc''
        rw [← hc'']
        exact hch
      · intro e' he'
        rw [he] at he'
        injection he' with he''
        rw [← he'']
        exact heb
    exact hmw ▸ List.IsInfix.map pyLowerChar hmid

/-- The shape every fixed heuristic word has: nonempty, and neither its first nor its
last character is whitespace (so stripping the text never destroys or creates a match). -/
def wordShape (w : String) : Bool :=
  !w.data.isEmpty && w.data.head?.all (fun c => !pyIsSpace c) &&
    w.data.getLast?.all (fun c => !pyIsSpace c)

theorem pyIn_strip_iff (w raw : String) (hw : wordShape w = true) :
    pyIn w (String.mk (pyLower (pyStrip raw).data)) = true ↔
      w.data <:+: pyLower raw.data := by
  have hsplit : (!w.data.isEmpty) = true ∧
      w.data.head?.all (fun c => !pyIsSpace c) = true ∧
      w.data.getLast?.all (fun c => !pyIsSpace c) = true := by
    have := hw
    unfold wordShape at this
    simp only [Bool.and_eq_true] at this
    exact ⟨this.1.1, this.1.2, this.2⟩
  have hne : w.data ≠ [] := by simpa [List.isEmpty_iff] using hsplit.1
  have hh : ∀ c, w.data.head? = some c → pyIsSpace c = false := by
    intro c hc
    have h2 := hsplit.2.1
    rw [hc] at h2
    simpa using h2
  have hl : ∀ c, w.data.getLast? = some c → pyIsSpace c = false := by
    intro c hc
    have h3 := hsplit.2.2
    rw [hc] at h3
    simpa using h3
  have heq : pyIn w (String.mk (pyLower (pyStrip raw).data)) =
      decide (w.data <:+: pyLower (pyStripL raw.data)) := rfl
  rw [heq, decide_eq_true_iff]
  exact infix_lower_strip_iff w.data raw.data hne hh hl

theorem any_word_strip_iff (WORDS : List String)
    (hok : WORDS.all wordShape = true) (raw : String) :
    (WORDS.any fun w => pyIn w (String.mk (pyLower (pyStrip raw).data))) = true ↔
      ∃ w ∈ WORDS, w.data <:+: pyLower raw.data := by
  rw [List.any_eq_true]
  constructor
  · rintro ⟨w, hwmem, hpw⟩
    exact ⟨w, hwmem, (pyIn_strip_iff w raw (List.all_eq_true.mp hok w hwmem)).mp hpw⟩
  · rintro ⟨w, hwmem, hin⟩
    exact ⟨w, hwmem, (pyIn_strip_iff w raw (List.all_eq_true.mp hok w hwmem)).mpr hin⟩

theorem POS_WORDS_shape : POS_WORDS.all wordShape = true := by decide

theorem NEG_WORDS_shape : NEG_WORDS.all wordShape = true := by decide

/-- C8: the analyzer's sentiment is decided by case-insensitive substring matches of the
fixed positive and negative word sets over `subject ++ "\n" ++ body`: a positive-only
match gives Positive, a negative-only match gives Negative, both or neither give
Neutral.  (The code first `strip`s the combined text; since no heuristic word starts or
ends in whitespace this changes no match.) -/
theorem C8_sentiment (rex : Re) (n : NormEmail) :
    (heuristicAnalysis rex n).sentiment =
      if (∃ w ∈ POS_WORDS, w.data <:+: pyLower (n.subject ++ "\n" ++ n.body).data) ∧
          ¬(∃ w ∈ NEG_WORDS, w.data <:+: pyLower (n.subject ++ "\n" ++ n.body).data) then
        "Positive"
      else if (∃ w ∈ NEG_WORDS, w.data <:+: pyLower (n.subject ++ "\n" ++ n.body).data) ∧
          ¬(∃ w ∈ POS_WORDS, w.data <:+: pyLower (n.subject ++ "\n" ++ n.body).data) then
        "Negative"
      else "Neutral" := by
  have hsent : (heuristicAnalysis rex n).sentiment =
      _sentiment (pyStrip (n.subject ++ "\n" ++ n.body)) := rfl
  rw [hsent]
  unfold _sentiment
  have hP := any_word_strip_iff POS_WORDS POS_WORDS_shape (n.subject ++ "\n" ++ n.body)
  have hN := any_word_strip_iff NEG_WORDS NEG_WORDS_shape (n.subject ++ "\n" ++ n.body)
  by_cases hp : ∃ w ∈ POS_WORDS, w.data <:+: pyLower (n.subject ++ "\n" ++ n.body).data <;>
    by_cases hn : ∃ w ∈ NEG_WORDS, w.data <:+: pyLower (n.subject ++ "\n" ++ n.body).data
  · have hpb := hP.mpr hp
    have hnb := hN.mpr hn
    conv_rhs => rw [if_neg (fun hcon => hcon.2 hn), if_neg (fun hcon => hcon.2 hp)]
    simp only [hpb, hnb]
    simp
  · have hpb := hP.mpr hp
    have hnb : (NEG_WORDS.any fun w =>
        pyIn w (String.mk (pyLower (pyStrip (n.subject ++ "\n" ++ n.body)).data))) = false := by
      rcases Bool.eq_false_or_eq_true (NEG_WORDS.any fun w =>
          pyIn w (String.mk (pyLower (pyStrip (n.subject ++ "\n" ++ n.body)).data))) with
        h0 | h0
      · exact absurd (hN.mp h0) hn
      · exact h0
    conv_rhs => rw [if_pos ⟨hp, hn⟩]
    simp only [hpb, hnb]
    simp
  · have hnb := hN.mpr hn
    have hpb : (POS_WORDS.any fun w =>
        pyIn w (String.mk (pyLower (pyStrip (n.subject ++ "\n" ++ n.body)).data))) = false := by
      rcases Bool.eq_false_or_eq_true (POS_WORDS.any fun w =>
          pyIn w (String.mk (pyLower (pyStrip (n.subject ++ "\n" ++ n.body)).data))) with
        h0 | h0
      · exact absurd (hP.mp h0) hp
      · exact h0
    conv_rhs => rw [if_neg (fun hcon => hp hcon.1), if_pos ⟨hn, hp⟩]
    simp only [hpb, hnb]
    simp
  · have hpb : (POS_WORDS.any fun w =>
        pyIn w (String.mk (pyLower (pyStrip (n.subject ++ "\n" ++ n.body)).data))) = false := by
      rcases Bool.eq_false_or_eq_true (POS_WORDS.any fun w =>
          pyIn w (String.mk (pyLower (pyStrip (n.subject ++ "\n" ++ n.body)).data))) with
        h0 | h0
      · exact absurd (hP.mp h0) hp
      · exact h0
    have hnb : (NEG_WORDS.any fun w =>
        pyIn w (String.mk (pyLower (pyStrip (n.subject ++ "\n" ++ n.body)).data))) = false := by
      rcases Bool.eq_false_or_eq_true (NEG_WORDS.any fun w =>
          pyIn w (String.mk (pyLower (pyStrip (n.subject ++ "\n" ++ n.body)).data))) with
        h0 | h0
      · exact absurd (hN.mp h0) hn
      · exact h0
    conv_rhs => rw [if_neg (fun hcon => hp hcon.1), if_neg (fun hcon => hn hcon.1)]
    simp only [hpb, hnb]
    simp

/-! ### Claim C9 – contact extraction -/

theorem lexLeB_total : ∀ (a b : List Char), lexLeB a b = true ∨ lexLeB b a = true := by
  intro a
  induction a with
  | nil => intro b; left; rfl
  | cons c as ih =>
    intro b
    cases b with
    | nil => right; rfl
    | cons d bs =>
      by_cases h1 : c.toNat < d.toNat
      · left; simp [lexLeB, h1]
      · by_cases h2 : d.toNat < c.toNat
        · right; simp [lexLeB, h2]
        · rcases ih bs with h | h
          · left; simp [lexLeB, h1, h2, h]
          · right; simp [lexLeB, h1, h2, h]

theorem lexLeB_trans : ∀ (a b c : List Char),
    lexLeB a b = true → lexLeB b c = true → lexLeB a c = true := by
  intro a
  induction a with
  | nil => intro b c _ _; rfl
  | cons x as ih =>
    intro b c hab hbc
    cases b with
    | nil => simp [lexLeB] at hab
    | cons y bs =>
      cases c with
      | nil => simp [lexLeB] at hbc
      | cons z cs =>
        simp only [lexLeB] at hab hbc ⊢
        split_ifs at hab hbc ⊢ <;>
          first
            | rfl
            | omega
            | (exact ih bs cs hab hbc)
            | (cases hab)
            | (cases hbc)

instance : IsTotal String pyStrLe := ⟨fun a b => lexLeB_total a.data b.data⟩

instance : IsTrans String pyStrLe :=
  ⟨fun a b c hab hbc => lexLeB_trans a.data b.data c.data hab hbc⟩

theorem pySortedSet_take_props (xs : List String) :
    ((pySortedSet xs).take 3).Pairwise pyStrLe ∧ ((pySortedSet xs).take 3).Nodup ∧
      ((pySortedSet xs).take 3).length ≤ 3 ∧
      (∀ x ∈ (pySortedSet xs).take 3, x ∈ xs) := by
  have hsorted : (pySortedSet xs).Pairwise pyStrLe :=
    List.sorted_insertionSort pyStrLe xs.dedup
  have hperm : (pySortedSet xs).Perm xs.dedup := List.perm_insertionSort pyStrLe xs.dedup
  have hnd : (pySortedSet xs).Nodup := hperm.nodup_iff.mpr (List.nodup_dedup xs)
  refine ⟨List.Pairwise.sublist (List.take_sublist _ _) hsorted,
    List.Nodup.sublist (List.take_sublist _ _) hnd,
    by rw [List.length_take]; exact inf_le_left, ?_⟩
  intro x hx
  have hx1 : x ∈ pySortedSet xs := (List.take_sublist _ _).subset hx
  exact List.mem_dedup.mp (hperm.mem_iff.mp hx1)

/-- C9: contacts come from the body only (two emails with equal bodies get equal contact
strings, and the analyzer passes exactly the body to the extractor); within the
extractor, each match list is deduplicated, sorted lexicographically, capped at 3, and
the segments are formatted as `"Emails: …"` / `"Phones: …"`, omitted when their match
list is empty, joined by `" | "`, with the empty string when both are empty. -/
theorem C9_contacts :
    (∀ (rex : Re) (n₁ n₂ : NormEmail), n₁.body = n₂.body →
      (heuristicAnalysis rex n₁).contacts = (heuristicAnalysis rex n₂).contacts)
    ∧
    (∀ (rex : Re) (n : NormEmail),
      (heuristicAnalysis rex n).contacts = _extract_contacts rex n.body)
    ∧
    (∀ (rex : Re) (text : String),
      (((pySortedSet (rex.findEmails text)).take 3).Pairwise pyStrLe ∧
        ((pySortedSet (rex.findEmails text)).take 3).Nodup ∧
        ((pySortedSet (rex.findEmails text)).take 3).length ≤ 3 ∧
        (∀ x ∈ (pySortedSet (rex.findEmails text)).take 3, x ∈ rex.findEmails text)) ∧
      (((pySortedSet (rex.findPhones text)).take 3).Pairwise pyStrLe ∧
        ((pySortedSet (rex.findPhones text)).take 3).Nodup ∧
        ((pySortedSet (rex.findPhones text)).take 3).length ≤ 3 ∧
        (∀ x ∈ (pySortedSet (rex.findPhones text)).take 3, x ∈ rex.findPhones text)) ∧
      (rex.findEmails text = [] → rex.findPhones text = [] →
        _extract_contacts rex text = "") ∧
      (rex.findEmails text ≠ [] → rex.findPhones text = [] →
        _extract_contacts rex text =
          "Emails: " ++ String.intercalate ", " ((pySortedSet (rex.findEmails text)).take 3)) ∧
      (rex.findEmails text = [] → rex.findPhones text ≠ [] →
        _extract_contacts rex text =
          "Phones: " ++ String.intercalate ", " ((pySortedSet (rex.findPhones text)).take 3)) ∧
      (rex.findEmails text ≠ [] → rex.findPhones text ≠ [] →
        _extract_contacts rex text =
          ("Emails: " ++ String.intercalate ", " ((pySortedSet (rex.findEmails text)).take 3)) ++
            " | " ++
            ("Phones: " ++ String.intercalate ", "
              ((pySortedSet (rex.findPhones text)).take 3)))) := by
  refine ⟨?_, fun rex n => rfl, ?_⟩
  · intro rex n₁ n₂ h
    show _extract_contacts rex n₁.body = _extract_contacts rex n₂.body
    rw [h]
  · intro rex text
    refine ⟨pySortedSet_take_props _, pySortedSet_take_props _, ?_, ?_, ?_, ?_⟩
    · intro he hp
      unfold _extract_contacts
      rw [he, hp]
      rfl
    · intro he hp
      have he' : (rex.findEmails text).isEmpty = false := by
        simpa [List.isEmpty_iff] using he
      unfold _extract_contacts
      simp only [he', hp, List.isEmpty_nil, Bool.false_eq_true, if_false, if_true]
      simp [String.intercalate, String.intercalate.go]
    · intro he hp
      have hp' : (rex.findPhones text).isEmpty = false := by
        simpa [List.isEmpty_iff] using hp
      unfold _extract_contacts
      simp only [he, hp', List.isEmpty_nil, Bool.false_eq_true, if_false, if_true]
      simp [String.intercalate, String.intercalate.go]
    · intro he hp
      have he' : (rex.findEmails text).isEmpty = false := by
        simpa [List.isEmpty_iff] using he
      have hp' : (rex.findPhones text).isEmpty = false := by
        simpa [List.isEmpty_iff] using hp
      unfold _extract_contacts
      simp only [he', hp', Bool.false_eq_true, if_false]
      simp [String.intercalate, String.intercalate.go, String.append_assoc]

/-- A concrete regex oracle for the C9 witness. -/
def rexW : Re := ⟨fun _ => ["b@x.com", "a@x.com", "b@x.com"], fun _ => []⟩

/-- Witness for C9 at a concrete match list (duplicates removed, sorted, one segment). -/
theorem C9_contacts_witness :
    (rexW.findEmails "body" ≠ [] ∧ rexW.findPhones "body" = []) ∧
    _extract_contacts rexW "body" =
      "Emails: " ++ String.intercalate ", " ((pySortedSet (rexW.findEmails "body")).take 3) :=
  ⟨⟨by decide, by decide⟩,
    (C9_contacts.2.2 rexW "body").2.2.2.1 (by decide) (by decide)⟩

/-! ### Claim C10 – normalization as pure defaulting -/

/-- C10 fails as stated: a present, non-null but empty message identifier is not carried
verbatim — Python's `or` treats it as falsy and normalization substitutes the derived
identifier. -/
theorem C10_counterexample :
    (⟨some "", some "a", some "s", some "b", some "2024-01-01T00:00:00"⟩ :
        RawEmail).message_id = some "" ∧
    (normalize hashConst0 "2024-06-01T00:00:00"
        ⟨some "", some "a", some "s", some "b", some "2024-01-01T00:00:00"⟩).message_id =
      "a_s_0" ∧
    ("a_s_0" : String) ≠ "" := by
  decide

/-- C10 amended: present non-empty fields pass through verbatim (sender and subject and
body even when empty); a missing message identifier — or a present empty one — is
replaced by the derived identifier; a missing, null, or empty received timestamp becomes
the run's current time while a present non-empty one is kept; the assembled record's
status is always the literal "pending". -/
theorem C10_amended :
    (∀ (pyhash : String → Int) (now : String) (e : RawEmail) (sv sj bv mid : String),
      e.sender = some sv → e.subject = some sj → e.body = some bv →
      e.message_id = some mid → mid ≠ "" →
      (normalize pyhash now e).sender = sv ∧ (normalize pyhash now e).subject = sj ∧
      (normalize pyhash now e).body = bv ∧ (normalize pyhash now e).message_id = mid)
    ∧
    (∀ (pyhash : String → Int) (now : String) (e : RawEmail),
      ((e.received_at = none ∨ e.received_at = some "") →
        (normalize pyhash now e).received_at = now) ∧
      (∀ rv, e.received_at = some rv → rv ≠ "" →
        (normalize pyhash now e).received_at = rv) ∧
      ((e.message_id = none ∨ e.message_id = some "") →
        (normalize pyhash now e).message_id = derivedId pyhash e) ∧
      (e.subject = none → (normalize pyhash now e).subject = "") ∧
      (e.body = none → (normalize pyhash now e).body = ""))
    ∧
    (∀ (rex : Re) (pyhash : String → Int) (now : String) (e : RawEmail),
      (buildRec rex pyhash now e).status = "pending") := by
  refine ⟨?_, ?_, fun rex pyhash now e => rfl⟩
  · intro pyhash now e sv sj bv mid hs hj hb hm hmne
    unfold normalize pyOrD
    rw [hs, hj, hb, hm]
    simp [hmne]
  · intro pyhash now e
    refine ⟨?_, ?_, ?_, ?_, ?_⟩
    · rintro (h | h) <;> simp [normalize, pyOrD, h]
    · intro rv h hne
      simp [normalize, pyOrD, h, hne]
    · rintro (h | h) <;> simp [normalize, pyOrD, h]
    · intro h
      simp [normalize, h]
    · intro h
      simp [normalize, h]

/-- A fully populated raw email for the C10 witness. -/
def c10e : RawEmail :=
  ⟨some "mid1", some "al", some "su", some "bo", some "2024-01-01T00:00:00"⟩

/-- Witness for the amended C10 at a fully populated raw email. -/
theorem C10_amended_witness :
    ((normalize hashConst0 "NOW" c10e).sender = "al" ∧
      (normalize hashConst0 "NOW" c10e).subject = "su" ∧
      (normalize hashConst0 "NOW" c10e).body = "bo" ∧
      (normalize hashConst0 "NOW" c10e).message_id = "mid1") ∧
    (buildRec rexNone hashConst0 "NOW" c10e).status = "pending" :=
  ⟨C10_amended.1 hashConst0 "NOW" c10e "al" "su" "bo" "mid1" rfl rfl rfl rfl (by decide),
    C10_amended.2.2 rexNone hashConst0 "NOW" c10e⟩

/-! ### Claim C5 – oracle degradation -/

/-- A `json.loads` that fails on every input (what it does on non-JSON text). -/
def jNone : String → Option (List (String × String)) := fun _ => none

def c5n : NormEmail := ⟨"m", "alice", "subj", "hello", "t"⟩

def c5a : Analysis := ⟨"Neutral", "Not urgent", "", ""⟩

/-- C5 fails as stated for the drafter: on unparseable (non-JSON) oracle output,
`analyze` degrades to the unchanged heuristic result, but `generate_response` has no
parse step — it returns the oracle's unparseable text verbatim (stripped), not a
template-derived draft. -/
theorem C5_counterexample :
    analyze_email rexNone true (some "unparseable oracle output !!") jNone c5n =
      heuristicAnalysis rexNone c5n ∧
    generate_response true (some "unparseable oracle output !!") c5n c5a =
      "unparseable oracle output !!" ∧
    generate_response true (some "unparseable oracle output !!") c5n c5a ≠
      fallbackDraft c5n c5a :=
  ⟨rfl, by decide, by decide⟩

theorem _sentiment_cases (t : String) :
    _sentiment t = "Positive" ∨ _sentiment t = "Negative" ∨ _sentiment t = "Neutral" := by
  simp only [_sentiment]
  split
  · exact Or.inl rfl
  · split
    · exact Or.inr (Or.inl rfl)
    · exact Or.inr (Or.inr rfl)

theorem _priority_cases (t : String) :
    _priority t = "Urgent" ∨ _priority t = "Not urgent" := by
  simp only [_priority]
  split
  · exact Or.inl rfl
  · exact Or.inr rfl

theorem append_ne_empty_of_left (s t : String) (h : s ≠ "") : s ++ t ≠ "" := by
  intro hc
  have hd := congrArg String.data hc
  rw [String.data_append, show ("" : String).data = [] from rfl] at hd
  have hs : s.data = [] := (List.append_eq_nil.mp hd).1
  apply h
  cases s with
  | mk d =>
    have hd' : d = [] := hs
    rw [hd']

theorem fallbackDraft_ne_empty (n : NormEmail) (a : Analysis) : fallbackDraft n a ≠ "" := by
  simp only [fallbackDraft]
  apply append_ne_empty_of_left
  apply append_ne_empty_of_left
  apply append_ne_empty_of_left
  apply append_ne_empty_of_left
  apply append_ne_empty_of_left
  apply append_ne_empty_of_left
  apply append_ne_empty_of_left
  apply append_ne_empty_of_left
  apply append_ne_empty_of_left
  apply append_ne_empty_of_left
  decide

/-- C5 amended: oracle failure (or a reply whose JSON cannot be parsed) leaves `analyze`
at the unchanged heuristic result, whose sentiment and priority are valid labels; the
drafter degrades to the (non-empty) template exactly when the oracle call fails or
returns falsy text or no credential is configured, and returns any non-empty oracle
reply verbatim, trimmed. -/
theorem C5_amended :
    (∀ (rex : Re) (gemKey : Bool) (reply : Option String)
        (jloads : String → Option (List (String × String))) (n : NormEmail),
      (reply = none ∨ (∀ r, reply = some r → jloads (extractJsonSub r) = none)) →
      analyze_email rex gemKey reply jloads n = heuristicAnalysis rex n)
    ∧
    (∀ (rex : Re) (n : NormEmail),
      ((heuristicAnalysis rex n).sentiment = "Positive" ∨
        (heuristicAnalysis rex n).sentiment = "Negative" ∨
        (heuristicAnalysis rex n).sentiment = "Neutral") ∧
      ((heuristicAnalysis rex n).priority = "Urgent" ∨
        (heuristicAnalysis rex n).priority = "Not urgent"))
    ∧
    (∀ (gemKey : Bool) (reply : Option String) (n : NormEmail) (analysis : Analysis),
      ((reply = none ∨ reply = some "" ∨ gemKey = false) →
        generate_response gemKey reply n analysis = fallbackDraft n analysis) ∧
      (∀ r, reply = some r → r ≠ "" → gemKey = true →
        generate_response gemKey reply n analysis = pyStrip r) ∧
      fallbackDraft n analysis ≠ "") := by
  refine ⟨?_, ?_, ?_⟩
  · intro rex gemKey reply jloads n h
    cases gemKey with
    | false => rfl
    | true =>
      cases hrep : reply with
      | none => subst hrep; rfl
      | some r =>
        subst hrep
        have hj : jloads (extractJsonSub r) = none := by
          rcases h with h | h
          · cases h
          · exact h r rfl
        show analyze_email rex true (some r) jloads n = heuristicAnalysis rex n
        simp only [analyze_email, hj]
        simp
  · intro rex n
    exact ⟨_sentiment_cases _, _priority_cases _⟩
  · intro gemKey reply n analysis
    refine ⟨?_, ?_, fallbackDraft_ne_empty n analysis⟩
    · intro h
      cases gemKey with
      | false => rfl
      | true =>
        rcases h with h | h | h
        · rw [h]; rfl
        · rw [h]
          unfold generate_response
          simp
        · cases h
    · intro r hr hrne hkey
      subst hkey
      rw [hr]
      unfold generate_response
      simp [hrne]

/-- Witness for the amended C5 at a concrete failed oracle call. -/
theorem C5_amended_witness :
    analyze_email rexNone true none jNone c5n = heuristicAnalysis rexNone c5n ∧
    generate_response true none c5n c5a = fallbackDraft c5n c5a ∧
    fallbackDraft c5n c5a ≠ "" :=
  ⟨C5_amended.1 rexNone true none jNone c5n (Or.inl rfl),
    (C5_amended.2.2 true none c5n c5a).1 (Or.inl rfl),
    (C5_amended.2.2 true none c5n c5a).2.2⟩

/-! ### Additional concrete instantiations -/

/-- Witness-style instantiation of C3's amended sort facts at a concrete batch. -/
theorem C3_amended_witness :
    (sortBatch [wRecA, wRecB]).Perm [wRecA, wRecB] :=
  (C3_amended [wRecA, wRecB]).1

/-- Witness-style instantiation of C6 at a concrete store. -/
theorem C6_fetch_order_witness :
    (fetch_emails [wRecA, wRecB] true 5).length ≤ 5 :=
  (C6_fetch_order [wRecA, wRecB] 5).1

/-- Witness-style instantiation of C7 at a missing knowledge-base directory. -/
theorem C7_retrieve_witness :
    retrieve_relevant_kb none "beta gamma" 3 = [] :=
  (C7_retrieve none "beta gamma" 3).1.2 rfl

/-- Witness-style instantiation of C8 at a concrete email. -/
theorem C8_sentiment_witness :
    (heuristicAnalysis rexNone c5n).sentiment = "Neutral" := by
  have h := C8_sentiment rexNone c5n
  rw [h]
  decide

end EmailAssist
